import Mathlib

/-!
Verification development for the diffusion core of BoltzDesign1
(`src/boltz/src/boltz/model/modules/diffusion.py`) and the structure-loading
utility (`src/boltz/src/boltz/utils.py`).

Real numbers model the Python floats.  Operations that can fail at run time
(`math.sqrt` of a negative number) or produce non-finite floats (division
`0/0` giving NaN) are embedded as `Option`-valued operations, `none` standing
for the domain error / non-finite result.  External collaborators
(`weighted_rigid_align`, `center_random_augmentation`, the score network,
the Gaussian draws) are opaque function parameters, exactly as the spec
treats them.
-/

namespace Boltz

/-- Configuration of `AtomDiffusion.__init__` restricted to the parameters the
claims touch.  Fields in constructor order: `sigma_min`, `sigma_max`,
`sigma_data`, `rho`, `gamma_0`, `gamma_min`, `noise_scale`, `step_scale`. -/
structure AtomDiffusionCfg where
  sigma_min : ℝ
  sigma_max : ℝ
  sigma_data : ℝ
  rho : ℝ
  gamma_0 : ℝ
  gamma_min : ℝ
  noise_scale : ℝ
  step_scale : ℝ

/-- The default configuration of `AtomDiffusion.__init__`:
`sigma_min=0.0004, sigma_max=160.0, sigma_data=16.0, rho=7, gamma_0=0.8,
gamma_min=1.0, noise_scale=1.003, step_scale=1.5`. -/
def defaultCfg : AtomDiffusionCfg :=
  ⟨0.0004, 160, 16, 7, 0.8, 1, 1.003, 1.5⟩

/-- `AtomDiffusion.c_skip` (line 391): `sigma_data**2 / (sigma**2 + sigma_data**2)`. -/
noncomputable def c_skip (sd sigma : ℝ) : ℝ := sd ^ 2 / (sigma ^ 2 + sd ^ 2)

/-- `AtomDiffusion.c_out` (line 394): `sigma * sigma_data / sqrt(sigma_data**2 + sigma**2)`. -/
noncomputable def c_out (sd sigma : ℝ) : ℝ := sigma * sd / Real.sqrt (sd ^ 2 + sigma ^ 2)

/-- `AtomDiffusion.c_in` (line 397): `1 / sqrt(sigma**2 + sigma_data**2)`. -/
noncomputable def c_in (sd sigma : ℝ) : ℝ := 1 / Real.sqrt (sigma ^ 2 + sd ^ 2)

/-- `AtomDiffusion.c_noise` (line 400): `log(sigma / sigma_data) * 0.25`. -/
noncomputable def c_noise (sd sigma : ℝ) : ℝ := Real.log (sigma / sd) * 0.25

/-- `AtomDiffusion.loss_weight` (line 682):
`(sigma**2 + sigma_data**2) / ((sigma * sigma_data) ** 2)`. -/
noncomputable def loss_weight (sd sigma : ℝ) : ℝ :=
  (sigma ^ 2 + sd ^ 2) / (sigma * sd) ^ 2

/-- C5 counterexample: with the configured `sigma_data = 16`, at `sigma = 16`
the product `c_in * c_out` equals `1/2`, while the claimed value
`sigma / (sigma^2 + sigma_data^2)` equals `1/32`; they differ. -/
theorem c_in_mul_c_out_ne_claimed :
    c_in 16 16 * c_out 16 16 ≠ 16 / (16 ^ 2 + 16 ^ 2) := by
  have h512 : (0:ℝ) ≤ 16 ^ 2 + 16 ^ 2 := by norm_num
  have hs : Real.sqrt (16 ^ 2 + 16 ^ 2) * Real.sqrt (16 ^ 2 + 16 ^ 2)
      = 16 ^ 2 + 16 ^ 2 := Real.mul_self_sqrt h512
  have hpos : (0:ℝ) < Real.sqrt (16 ^ 2 + 16 ^ 2) := by
    have : (0:ℝ) < 16 ^ 2 + 16 ^ 2 := by norm_num
    exact Real.sqrt_pos.mpr this
  unfold c_in c_out
  have hval : 1 / Real.sqrt (16 ^ 2 + 16 ^ 2)
      * (16 * 16 / Real.sqrt (16 ^ 2 + 16 ^ 2)) = 1 / 2 := by
    field_simp
    nlinarith [hs]
  rw [hval]
  norm_num

/-- C5 (amended): for every `sigma > 0` and `sigma_data > 0`,
`c_in(sigma) * c_out(sigma) = sigma * sigma_data / (sigma^2 + sigma_data^2)`. -/
theorem c_in_mul_c_out (sd sigma : ℝ) (hsd : 0 < sd) (hs : 0 < sigma) :
    c_in sd sigma * c_out sd sigma = sigma * sd / (sigma ^ 2 + sd ^ 2) := by
  have hsum : (0:ℝ) < sigma ^ 2 + sd ^ 2 := by positivity
  have hsqrt : (0:ℝ) < Real.sqrt (sigma ^ 2 + sd ^ 2) := Real.sqrt_pos.mpr hsum
  have hcomm : sd ^ 2 + sigma ^ 2 = sigma ^ 2 + sd ^ 2 := by ring
  have hmul : Real.sqrt (sigma ^ 2 + sd ^ 2) * Real.sqrt (sigma ^ 2 + sd ^ 2)
      = sigma ^ 2 + sd ^ 2 := Real.mul_self_sqrt (le_of_lt hsum)
  unfold c_in c_out
  rw [hcomm]
  field_simp

/-- C5 witness: the amended identity evaluated at `sigma_data = 16`,
`sigma = 16`. -/
theorem c_in_mul_c_out_witness :
    c_in 16 16 * c_out 16 16 = 16 * 16 / (16 ^ 2 + 16 ^ 2) :=
  c_in_mul_c_out 16 16 (by norm_num) (by norm_num)

/-- C9: the loss reweighting satisfies
`loss_weight(sigma) = (sigma^2 + sigma_data^2) / (sigma * sigma_data)^2`
for every `sigma`, and `loss_weight(sigma_data) = 2 / sigma_data^2` exactly. -/
theorem loss_weight_spec (sd : ℝ) (hsd : sd ≠ 0) :
    (∀ sigma : ℝ, loss_weight sd sigma = (sigma ^ 2 + sd ^ 2) / (sigma * sd) ^ 2)
    ∧ loss_weight sd sd = 2 / sd ^ 2 := by
  constructor
  · intro sigma
    rfl
  · unfold loss_weight
    field_simp
    ring

/-- C9 witness: with the configured `sigma_data = 16`,
`loss_weight(16) = 2 / 256`. -/
theorem loss_weight_witness : loss_weight 16 16 = 2 / 16 ^ 2 :=
  (loss_weight_spec 16 (by norm_num)).2

/-- Entry `i` of the sigma tensor built by `AtomDiffusion.sample_schedule`
(lines 429-446), before the terminal pad:
`(sigma_max**(1/rho) + i/(N-1) * (sigma_min**(1/rho) - sigma_max**(1/rho))) ** rho * sigma_data`. -/
noncomputable def sched_sigma (cfg : AtomDiffusionCfg) (N : ℕ) (i : ℕ) : ℝ :=
  (cfg.sigma_max ^ (1 / cfg.rho)
      + (i : ℝ) / ((N : ℝ) - 1)
        * (cfg.sigma_min ^ (1 / cfg.rho) - cfg.sigma_max ^ (1 / cfg.rho))) ^ cfg.rho
    * cfg.sigma_data

/-- `AtomDiffusion.sample_schedule` (lines 429-446): the `N` Karras sigmas,
scaled by `sigma_data`, with a final `0` appended by `F.pad`. -/
noncomputable def sample_schedule (cfg : AtomDiffusionCfg) (N : ℕ) : List ℝ :=
  ((List.range N).map (sched_sigma cfg N)) ++ [0]

/-- IEEE-style float division as performed by `steps / (num_sampling_steps - 1)`
inside `sample_schedule`: a zero divisor yields a non-finite float
(`0/0` is NaN), represented here as `none`. -/
noncomputable def fdiv (a b : ℝ) : Option ℝ :=
  if b = 0 then none else some (a / b)

/-- Entry `i` of `AtomDiffusion.sample_schedule` with the division embedded as
`fdiv`, so that the NaN produced at `num_sampling_steps = 1` is visible;
a non-finite interpolation parameter propagates to the whole entry. -/
noncomputable def sched_sigma_fp (cfg : AtomDiffusionCfg) (N : ℕ) (i : ℕ) : Option ℝ :=
  (fdiv (i : ℝ) ((N : ℝ) - 1)).map fun q =>
    (cfg.sigma_max ^ (1 / cfg.rho)
        + q * (cfg.sigma_min ^ (1 / cfg.rho) - cfg.sigma_max ^ (1 / cfg.rho))) ^ cfg.rho
      * cfg.sigma_data

/-- `AtomDiffusion.sample_schedule` with NaN-aware division (`none` = NaN
entry); the padded terminal `0` is always finite. -/
noncomputable def sample_schedule_fp (cfg : AtomDiffusionCfg) (N : ℕ) : List (Option ℝ) :=
  ((List.range N).map (sched_sigma_fp cfg N)) ++ [some 0]

/-- For `N ≥ 2` the divisor `N - 1` is nonzero, so the NaN-aware schedule
agrees with the real-valued one entrywise. -/
theorem sample_schedule_fp_eq_of_two_le (cfg : AtomDiffusionCfg) (N : ℕ) (hN : 2 ≤ N) :
    sample_schedule_fp cfg N = (sample_schedule cfg N).map some := by
  unfold sample_schedule_fp sample_schedule
  rw [List.map_append, List.map_map]
  congr 1
  apply List.map_congr_left
  intro i _
  have hne : ((N : ℝ) - 1) ≠ 0 := by
    have h2 : (2 : ℝ) ≤ (N : ℝ) := by exact_mod_cast hN
    nlinarith
  simp only [Function.comp_apply, sched_sigma_fp, sched_sigma, fdiv, if_neg hne]
  rfl

/-- Convenient accessor for schedule entries: `getD` with default `0`. -/
noncomputable def sched (cfg : AtomDiffusionCfg) (N : ℕ) (k : ℕ) : ℝ :=
  (sample_schedule cfg N).getD k 0

theorem sample_schedule_length (cfg : AtomDiffusionCfg) (N : ℕ) :
    (sample_schedule cfg N).length = N + 1 := by
  simp [sample_schedule]

theorem sched_of_lt (cfg : AtomDiffusionCfg) {N k : ℕ} (h : k < N) :
    sched cfg N k = sched_sigma cfg N k := by
  unfold sched sample_schedule
  rw [List.getD_eq_getElem?_getD, List.getElem?_append]
  simp [h]

theorem sched_last (cfg : AtomDiffusionCfg) (N : ℕ) :
    sched cfg N N = 0 := by
  unfold sched sample_schedule
  rw [List.getD_eq_getElem?_getD, List.getElem?_append_right (by simp)]
  simp

theorem sched_past_end (cfg : AtomDiffusionCfg) {N k : ℕ} (h : N + 1 ≤ k) :
    sched cfg N k = 0 := by
  unfold sched sample_schedule
  rw [List.getD_eq_getElem?_getD, List.getElem?_append_right (by simpa using by omega)]
  have : k - N ≠ 0 := by omega
  cases hk : k - N with
  | zero => omega
  | succ m => simp

/-- Strict monotonicity of the Karras interpolation base `A + t * (B - A)`
for `0 < B < A` and interpolation parameters in `[0, 1]`. -/
theorem karras_base_strict_mono (A B t s : ℝ) (hB : 0 < B) (hBA : B < A)
    (hts : t < s) (_h0 : 0 ≤ t) (hs1 : s ≤ 1) :
    0 < A + s * (B - A) ∧ A + s * (B - A) < A + t * (B - A) := by
  constructor
  · nlinarith
  · nlinarith

/-- With the default configuration and `N = 5`, `sched_sigma` unfolds to the
Karras formula with the concrete hyperparameters. -/
theorem sched_sigma_default (i : ℕ) :
    sched_sigma defaultCfg 5 i =
      ((160:ℝ) ^ ((1:ℝ)/7)
          + (i:ℝ)/((5:ℝ)-1) * ((0.0004:ℝ) ^ ((1:ℝ)/7) - (160:ℝ) ^ ((1:ℝ)/7))) ^ (7:ℝ)
        * 16 := by
  unfold sched_sigma defaultCfg
  norm_num

/-- Adjacent sigmas of the default 5-step schedule strictly decrease. -/
theorem sched_sigma_default_lt {i j : ℕ} (hij : i < j) (hj : j ≤ 4) :
    sched_sigma defaultCfg 5 j < sched_sigma defaultCfg 5 i := by
  have hB : (0:ℝ) < (0.0004:ℝ) ^ ((1:ℝ)/7) := Real.rpow_pos_of_pos (by norm_num) _
  have hBA : (0.0004:ℝ) ^ ((1:ℝ)/7) < (160:ℝ) ^ ((1:ℝ)/7) :=
    Real.rpow_lt_rpow (by norm_num) (by norm_num) (by norm_num)
  have hij' : (i:ℝ) < (j:ℝ) := by exact_mod_cast hij
  have hj' : (j:ℝ) ≤ 4 := by exact_mod_cast hj
  have hi0 : (0:ℝ) ≤ (i:ℝ) := Nat.cast_nonneg i
  have key := karras_base_strict_mono ((160:ℝ) ^ ((1:ℝ)/7)) ((0.0004:ℝ) ^ ((1:ℝ)/7))
    ((i:ℝ)/4) ((j:ℝ)/4) hB hBA (by linarith) (by positivity) (by linarith)
  have hrpow := Real.rpow_lt_rpow key.1.le key.2 (by norm_num : (0:ℝ) < 7)
  rw [sched_sigma_default i, sched_sigma_default j]
  norm_num
  nlinarith [hrpow]

/-- C2: for the default configuration (`sigma_min = 0.0004`, `sigma_max = 160`,
`rho = 7`, `sigma_data = 16`) and `N = 5` steps, `sample_schedule` returns
`N + 1` values; the first `N` follow the Karras interpolation
`(sigma_max^(1/rho) + i/(N-1) * (sigma_min^(1/rho) - sigma_max^(1/rho)))^rho * sigma_data`
and strictly decrease; the appended final value is exactly `0`; and
`sigma[0] = sigma_max * sigma_data` exactly. -/
theorem sample_schedule_default_spec :
    (sample_schedule defaultCfg 5).length = 5 + 1
    ∧ (∀ i : ℕ, i < 5 → sched defaultCfg 5 i =
        ((160:ℝ) ^ ((1:ℝ)/7)
            + (i:ℝ)/((5:ℝ)-1) * ((0.0004:ℝ) ^ ((1:ℝ)/7) - (160:ℝ) ^ ((1:ℝ)/7))) ^ (7:ℝ)
          * 16)
    ∧ (∀ i j : ℕ, i < j → j < 5 → sched defaultCfg 5 j < sched defaultCfg 5 i)
    ∧ sched defaultCfg 5 5 = 0
    ∧ sched defaultCfg 5 0 = 160 * 16 := by
  refine ⟨sample_schedule_length defaultCfg 5, ?_, ?_, sched_last defaultCfg 5, ?_⟩
  · intro i hi
    rw [sched_of_lt defaultCfg hi, sched_sigma_default i]
  · intro i j hij hj
    rw [sched_of_lt defaultCfg hj, sched_of_lt defaultCfg (lt_trans hij hj)]
    exact sched_sigma_default_lt hij (by omega)
  · rw [sched_of_lt defaultCfg (by norm_num : 0 < 5), sched_sigma_default 0]
    rw [Nat.cast_zero]
    rw [show ((0:ℝ)/((5:ℝ)-1) * ((0.0004:ℝ) ^ ((1:ℝ)/7) - (160:ℝ) ^ ((1:ℝ)/7))) = 0 by ring]
    rw [add_zero, ← Real.rpow_mul (by norm_num : (0:ℝ) ≤ 160)]
    norm_num

/-- C2 witness: concrete instances of the schedule properties. -/
theorem sample_schedule_default_spec_witness :
    (sample_schedule defaultCfg 5).length = 5 + 1
    ∧ sched defaultCfg 5 1 < sched defaultCfg 5 0
    ∧ sched defaultCfg 5 5 = 0 := by
  obtain ⟨h1, _, h3, h4, _⟩ := sample_schedule_default_spec
  exact ⟨h1, h3 0 1 (by norm_num) (by norm_num), h4⟩

/-- C4 counterexample: at `num_sampling_steps = 1` the code does not fail
fast; the division by `N - 1 = 0` is evaluated as `0/0`, so `sample_schedule`
silently returns a list whose generated entry is non-finite (NaN, embedded as
`none`), followed by the appended `0`. -/
theorem sample_schedule_fp_one : sample_schedule_fp defaultCfg 1 = [none, some 0] := by
  have h : ((1:ℕ):ℝ) - 1 = 0 := by norm_num
  have hr : List.range 1 = [0] := rfl
  simp [sample_schedule_fp, sched_sigma_fp, fdiv, h, hr]

/-- C4 (amended): schedule generation has no fail-fast guard for fewer than
two steps. At `N = 1` it silently evaluates the division by `(N-1) = 0`,
producing a NaN sigma followed by the appended `0`; at `N = 0` it returns
just the appended `0`; for `N ≥ 2` every value is finite. -/
theorem sample_schedule_low_steps :
    sample_schedule_fp defaultCfg 1 = [none, some 0]
    ∧ sample_schedule_fp defaultCfg 0 = [some 0]
    ∧ ∀ N : ℕ, 2 ≤ N →
        sample_schedule_fp defaultCfg N = (sample_schedule defaultCfg N).map some := by
  refine ⟨?_, ?_, fun N hN => sample_schedule_fp_eq_of_two_le defaultCfg N hN⟩
  · have h : ((1:ℕ):ℝ) - 1 = 0 := by norm_num
    have hr : List.range 1 = [0] := rfl
    simp [sample_schedule_fp, sched_sigma_fp, fdiv, h, hr]
  · simp [sample_schedule_fp]

/-- C4 witness: the finite-schedule clause evaluated at `N = 2`. -/
theorem sample_schedule_low_steps_witness :
    sample_schedule_fp defaultCfg 2 = (sample_schedule defaultCfg 2).map some :=
  sample_schedule_low_steps.2.2 2 (by norm_num)

/-- Elementwise gammas (lines 464 and 580):
`torch.where(sigmas > gamma_min, gamma_0, 0.0)`. -/
noncomputable def schedule_gammas (cfg : AtomDiffusionCfg) (N : ℕ) : List ℝ :=
  (sample_schedule cfg N).map fun s => if cfg.gamma_min < s then cfg.gamma_0 else 0

/-- Step descriptors (lines 465 and 581):
`list(zip(sigmas[:-1], sigmas[1:], gammas[1:]))`. -/
noncomputable def sigmas_and_gammas (cfg : AtomDiffusionCfg) (N : ℕ) : List (ℝ × ℝ × ℝ) :=
  (sample_schedule cfg N).dropLast.zip
    (((sample_schedule cfg N).drop 1).zip ((schedule_gammas cfg N).drop 1))

/-- Adjacent-pair triples `(x_k, x_(k+1), g x_(k+1))` of a list. -/
noncomputable def adjTriples (g : ℝ → ℝ) : List ℝ → List (ℝ × ℝ × ℝ)
  | [] => []
  | [_] => []
  | x :: y :: rest => (x, y, g y) :: adjTriples g (y :: rest)

/-- The zip of `xs[:-1]`, `xs[1:]` and `(map g xs)[1:]` is exactly the list of
adjacent-pair triples. -/
theorem zip_dropLast_eq_adjTriples (g : ℝ → ℝ) :
    ∀ xs : List ℝ,
      xs.dropLast.zip ((xs.drop 1).zip ((xs.map g).drop 1)) = adjTriples g xs
  | [] => rfl
  | [_] => rfl
  | x :: y :: rest => by
      have ih := zip_dropLast_eq_adjTriples g (y :: rest)
      simpa [adjTriples] using ih

theorem adjTriples_getD (g : ℝ → ℝ) :
    ∀ (xs : List ℝ) (k : ℕ), k + 1 < xs.length →
      (adjTriples g xs).getD k (0, 0, 0)
        = (xs.getD k 0, xs.getD (k+1) 0, g (xs.getD (k+1) 0))
  | [], k, h => by simp at h
  | [_], k, h => by simp at h
  | _ :: y :: rest, 0, _ => by simp [adjTriples]
  | x :: y :: rest, (k+1), h => by
      have ih := adjTriples_getD g (y :: rest) k (by simpa using h)
      simpa [adjTriples] using ih

theorem sigmas_and_gammas_eq (cfg : AtomDiffusionCfg) (N : ℕ) :
    sigmas_and_gammas cfg N
      = adjTriples (fun s => if cfg.gamma_min < s then cfg.gamma_0 else 0)
          (sample_schedule cfg N) :=
  zip_dropLast_eq_adjTriples _ (sample_schedule cfg N)

/-- C10: the `k`-th step descriptor of `sample`/`sample_guided` is
`(sigma_k, sigma_(k+1), gamma)` where `gamma = gamma_0` if
`sigma_(k+1) > gamma_min` else `0` — i.e. gamma is derived from the step's
target noise level `sigma_next`, not `sigma_prev`; and whenever
`gamma_min ≥ 0` (as in the default `gamma_min = 1.0`) the final step, whose
`sigma_next` is the appended `0`, has `gamma = 0`. -/
theorem sigmas_and_gammas_spec (cfg : AtomDiffusionCfg) (N : ℕ) :
    (∀ k : ℕ, k < N →
      (sigmas_and_gammas cfg N).getD k (0, 0, 0)
        = (sched cfg N k, sched cfg N (k+1),
            if cfg.gamma_min < sched cfg N (k+1) then cfg.gamma_0 else 0))
    ∧ (1 ≤ N → 0 ≤ cfg.gamma_min →
        (sigmas_and_gammas cfg N).getD (N-1) (0, 0, 0) = (sched cfg N (N-1), 0, 0)) := by
  have hmain : ∀ k : ℕ, k < N →
      (sigmas_and_gammas cfg N).getD k (0, 0, 0)
        = (sched cfg N k, sched cfg N (k+1),
            if cfg.gamma_min < sched cfg N (k+1) then cfg.gamma_0 else 0) := by
    intro k hk
    rw [sigmas_and_gammas_eq]
    have hbound : k + 1 < (sample_schedule cfg N).length := by
      rw [sample_schedule_length]; omega
    exact adjTriples_getD _ (sample_schedule cfg N) k hbound
  refine ⟨hmain, fun hN hγ => ?_⟩
  have hlt : N - 1 < N := by omega
  have hsucc : N - 1 + 1 = N := by omega
  rw [hmain (N-1) hlt, hsucc, sched_last]
  rw [if_neg (not_lt.mpr hγ)]

/-- C10 witness: the descriptor shape at step 0 and the final step of the
default 5-step schedule. -/
theorem sigmas_and_gammas_spec_witness :
    (sigmas_and_gammas defaultCfg 5).getD 0 (0, 0, 0)
      = (sched defaultCfg 5 0, sched defaultCfg 5 1,
          if defaultCfg.gamma_min < sched defaultCfg 5 1 then defaultCfg.gamma_0 else 0)
    ∧ (sigmas_and_gammas defaultCfg 5).getD 4 (0, 0, 0) = (sched defaultCfg 5 4, 0, 0) :=
  ⟨(sigmas_and_gammas_spec defaultCfg 5).1 0 (by norm_num),
    (sigmas_and_gammas_spec defaultCfg 5).2 (by norm_num) (by norm_num [defaultCfg])⟩

/-- A 3D point (one atom's coordinates). -/
abbrev Point : Type := Fin 3 → ℝ

/-- A coordinate tensor of shape `(samples, atoms, 3)`. -/
abbrev SCoords (b n : ℕ) : Type := Fin b → Fin n → Point

/-- A per-atom float mask of shape `(samples, atoms)`. -/
abbrev AMask (b n : ℕ) : Type := Fin b → Fin n → ℝ

/-- The sigma argument of `preconditioned_network_forward`: the code accepts a
Python float scalar or a per-sample tensor of shape `(batch,)` (line 412). -/
inductive SigmaArg (b : ℕ) where
  | scalar : ℝ → SigmaArg b
  | vector : (Fin b → ℝ) → SigmaArg b

/-- Lines 412-415: a float scalar is expanded by `torch.full((batch,), sigma)`;
`rearrange` to shape `(b, 1, 1)` then broadcasts one value per sample over the
atom and coordinate dimensions. -/
def broadcastSigma {b : ℕ} : SigmaArg b → (Fin b → ℝ)
  | SigmaArg.scalar s => fun _ => s
  | SigmaArg.vector v => v

/-- `AtomDiffusion.preconditioned_network_forward` (lines 403-427).  The score
model `net` is the opaque collaborator mapping `(r_noisy, times)` to
`(r_update, token_a)`; the conditioning context is folded into `net`. -/
noncomputable def preconditioned_network_forward {b n : ℕ} {τ : Type} (sd : ℝ)
    (net : SCoords b n → (Fin b → ℝ) → SCoords b n × τ)
    (noised_atom_coords : SCoords b n) (sigma : SigmaArg b) : SCoords b n × τ :=
  let padded_sigma : Fin b → ℝ := broadcastSigma sigma
  let net_out :=
    net (fun s a k => c_in sd (padded_sigma s) * noised_atom_coords s a k)
      (fun s => c_noise sd (broadcastSigma sigma s))
  (fun s a k =>
      c_skip sd (padded_sigma s) * noised_atom_coords s a k
        + c_out sd (padded_sigma s) * net_out.1 s a k,
    net_out.2)

/-- C1: for scalar or per-sample `sigma`, `preconditioned_network_forward`
broadcasts `sigma` to one value per sample across the atom and coordinate
dimensions, calls the score model on `c_in(sigma) * noisy` with time embedding
`c_noise(sigma)`, and returns `c_skip(sigma) * noisy + c_out(sigma) * update`
together with the token output, where the coefficients are
`c_skip(s) = sd^2/(s^2+sd^2)`, `c_out(s) = s*sd/sqrt(sd^2+s^2)`,
`c_in(s) = 1/sqrt(s^2+sd^2)`, `c_noise(s) = 0.25*ln(s/sd)`. -/
theorem preconditioned_network_forward_spec {b n : ℕ} {τ : Type} (sd : ℝ)
    (net : SCoords b n → (Fin b → ℝ) → SCoords b n × τ)
    (x : SCoords b n) (sigma : SigmaArg b) :
    (preconditioned_network_forward sd net x sigma
      = ((fun s a k =>
            c_skip sd (broadcastSigma sigma s) * x s a k
              + c_out sd (broadcastSigma sigma s)
                * (net (fun s2 a2 k2 => c_in sd (broadcastSigma sigma s2) * x s2 a2 k2)
                    (fun s2 => c_noise sd (broadcastSigma sigma s2))).1 s a k),
          (net (fun s2 a2 k2 => c_in sd (broadcastSigma sigma s2) * x s2 a2 k2)
              (fun s2 => c_noise sd (broadcastSigma sigma s2))).2))
    ∧ (∀ v : ℝ, broadcastSigma (SigmaArg.scalar v : SigmaArg b) = fun _ => v)
    ∧ (∀ v : Fin b → ℝ, broadcastSigma (SigmaArg.vector v) = v)
    ∧ (∀ s : ℝ, c_skip sd s = sd ^ 2 / (s ^ 2 + sd ^ 2))
    ∧ (∀ s : ℝ, c_out sd s = s * sd / Real.sqrt (sd ^ 2 + s ^ 2))
    ∧ (∀ s : ℝ, c_in sd s = 1 / Real.sqrt (s ^ 2 + sd ^ 2))
    ∧ (∀ s : ℝ, c_noise sd s = 0.25 * Real.log (s / sd)) := by
  refine ⟨rfl, fun v => rfl, fun v => rfl, fun s => rfl, fun s => rfl, fun s => rfl, ?_⟩
  intro s
  unfold c_noise
  ring

/-- Python `math.sqrt`: raises a `ValueError` (math domain error) on a
negative argument, embedded as `none`; otherwise the real square root. -/
noncomputable def psqrt (x : ℝ) : Option ℝ :=
  if x < 0 then none else some (Real.sqrt x)

/-- The scalar magnitude of the injected noise in `sample` (lines 489-494) and
`sample_guided` (lines 617-622): `noise_scale * sqrt(t_hat**2 - sigma_tm**2)`
with `t_hat = sigma_tm * (1 + gamma)` and fallible `math.sqrt`. -/
noncomputable def eps_scale (noise_scale sigma_tm gamma : ℝ) : Option ℝ :=
  (psqrt ((sigma_tm * (1 + gamma)) ^ 2 - sigma_tm ^ 2)).map fun r => noise_scale * r

/-- For a nonnegative `gamma` the radicand is nonnegative and the noise
magnitude is defined. -/
theorem eps_scale_eq_of_nonneg (ns sigma gamma : ℝ) (hg : 0 ≤ gamma) :
    eps_scale ns sigma gamma
      = some (ns * Real.sqrt ((sigma * (1 + gamma)) ^ 2 - sigma ^ 2)) := by
  have hq : (0:ℝ) ≤ 2 * gamma + gamma ^ 2 := by nlinarith
  have hrad : (0:ℝ) ≤ (sigma * (1 + gamma)) ^ 2 - sigma ^ 2 := by
    nlinarith [mul_nonneg (sq_nonneg sigma) hq]
  unfold eps_scale psqrt
  rw [if_neg (not_lt.mpr hrad)]
  rfl

/-- One step's random draws: the joint random rigid augmentation
(`center_random_augmentation`, an external collaborator drawing fresh
randomness each step, applied to the coordinates together with the previous
denoised estimate) and the step's `torch.randn(shape)` Gaussian draw. -/
structure StepDraws (b n : ℕ) where
  augment : SCoords b n × Option (SCoords b n) → SCoords b n × Option (SCoords b n)
  gauss : SCoords b n

/-- The `weighted_rigid_align` collaborator:
`(mobile, target, weights, mask) -> aligned mobile`, available at every batch
size (the code calls it on the full sample batch and, in `align_template`, on
a batch of one). -/
def WRAlign : Type :=
  (b n : ℕ) → SCoords b n → SCoords b n → AMask b n → AMask b n → SCoords b n

/-- One iteration of the denoising loop of `AtomDiffusion.sample`
(lines 477-540), acting on the state (coordinates, previous denoised
estimate).  `none` models a Python exception (negative `math.sqrt` radicand).
Token-representation accumulation (lines 509-521) never writes the
coordinates and is omitted from the coordinate state. -/
noncomputable def sample_step {b n : ℕ} {τ : Type} (cfg : AtomDiffusionCfg)
    (net : SCoords b n → (Fin b → ℝ) → SCoords b n × τ) (wra : WRAlign)
    (alignment_reverse_diff : Bool) (atom_mask : AMask b n) (draws : StepDraws b n)
    (sg : ℝ × ℝ × ℝ) (st : SCoords b n × Option (SCoords b n)) :
    Option (SCoords b n × Option (SCoords b n)) :=
  let sigma_tm := sg.1
  let sigma_t := sg.2.1
  let gamma := sg.2.2
  let aug := draws.augment st
  let atom_coords := aug.1
  let t_hat := sigma_tm * (1 + gamma)
  match eps_scale cfg.noise_scale sigma_tm gamma with
  | none => none
  | some e =>
    let atom_coords_noisy : SCoords b n :=
      fun s a k => atom_coords s a k + e * draws.gauss s a k
    let atom_coords_denoised :=
      (preconditioned_network_forward cfg.sigma_data net atom_coords_noisy
        (SigmaArg.scalar t_hat)).1
    let noisy2 : SCoords b n :=
      if alignment_reverse_diff then
        wra b n atom_coords_noisy atom_coords_denoised atom_mask atom_mask
      else atom_coords_noisy
    some
      ((fun s a k =>
          noisy2 s a k
            + cfg.step_scale * (sigma_t - t_hat)
              * ((noisy2 s a k - atom_coords_denoised s a k) / t_hat)),
        some atom_coords_denoised)

/-- Sequential driver: applies `f` to each step descriptor in order, threading
the state and a step counter, stopping at the first failure. -/
def foldSteps {σ α : Type} (f : ℕ → α → σ → Option σ) : ℕ → List α → σ → Option σ
  | _, [], st => some st
  | i, x :: xs, st =>
      match f i x st with
      | none => none
      | some st2 => foldSteps f (i + 1) xs st2

/-- `AtomDiffusion.sample` (lines 448-542), restricted to the coordinate
stream: initial coordinates are `sigmas[0]` times a Gaussian draw, then the
step descriptors are consumed in order.  Randomness is supplied as one
initial draw plus one `StepDraws` bundle per step, in step order, matching
the code's sequential draw order, shapes and count. -/
noncomputable def sample {b n : ℕ} {τ : Type} (cfg : AtomDiffusionCfg)
    (net : SCoords b n → (Fin b → ℝ) → SCoords b n × τ) (wra : WRAlign)
    (alignment_reverse_diff : Bool) (atom_mask : AMask b n)
    (init_gauss : SCoords b n) (draws : ℕ → StepDraws b n) (N : ℕ) :
    Option (SCoords b n) :=
  let init_sigma := sched cfg N 0
  let atom_coords : SCoords b n := fun s a k => init_sigma * init_gauss s a k
  (foldSteps
      (fun i sg st =>
        sample_step cfg net wra alignment_reverse_diff atom_mask (draws i) sg st)
      0 (sigmas_and_gammas cfg N) (atom_coords, none)).map
    fun st => st.1

/-- C3 (amended): in each sampling step the injected noise magnitude is
`noise_scale * sqrt(t_hat^2 - sigma_prev^2)` with NO clamping of the
radicand: it is well defined whenever `gamma ≥ 0`; when `t_hat = sigma_prev`
(`gamma = 0`) the noise is exactly zero; but when `t_hat^2 < sigma_prev^2`
the unclamped `math.sqrt` raises a domain error instead of returning a
clamped value. -/
theorem eps_scale_spec (ns sigma gamma : ℝ) :
    (0 ≤ gamma → eps_scale ns sigma gamma
        = some (ns * Real.sqrt ((sigma * (1 + gamma)) ^ 2 - sigma ^ 2)))
    ∧ eps_scale ns sigma 0 = some 0
    ∧ ((sigma * (1 + gamma)) ^ 2 < sigma ^ 2 → eps_scale ns sigma gamma = none) := by
  refine ⟨fun hg => eps_scale_eq_of_nonneg ns sigma gamma hg, ?_, fun h => ?_⟩
  · rw [eps_scale_eq_of_nonneg ns sigma 0 le_rfl]
    have h0 : (sigma * (1 + 0)) ^ 2 - sigma ^ 2 = 0 := by ring
    rw [h0, Real.sqrt_zero, mul_zero]
  · unfold eps_scale psqrt
    rw [if_pos (by linarith)]
    rfl

/-- C3 witness: zero noise at `gamma = 0`, domain error at `gamma = -1/2`. -/
theorem eps_scale_spec_witness :
    eps_scale 1.003 1 0 = some 0 ∧ eps_scale 1.003 1 (-(1/2)) = none :=
  ⟨(eps_scale_spec 1.003 1 0).2.1, (eps_scale_spec 1.003 1 (-(1/2))).2.2 (by norm_num)⟩

/-- A configuration identical to the default except `gamma_0 = -1/2` and
`gamma_min = -5`, so every step has `t_hat < sigma_prev`. -/
noncomputable def cfgNegGamma : AtomDiffusionCfg :=
  ⟨0.0004, 160, 16, 7, -(1/2), -5, 1.003, 1.5⟩

/-- A score model stub on one sample and one atom: returns the input
coordinates as the update and a unit token output. -/
noncomputable def trivNet : SCoords 1 1 → (Fin 1 → ℝ) → SCoords 1 1 × Unit :=
  fun r _ => (r, Unit.unit)

/-- A rigid-alignment stub: returns the mobile point set unchanged. -/
def trivWra : WRAlign := fun _ _ mobile _ _ _ => mobile

/-- An all-ones atom mask on one sample and one atom. -/
noncomputable def onesMask : AMask 1 1 := fun _ _ => 1

/-- The zero coordinate tensor on one sample and one atom. -/
noncomputable def zeroCoords : SCoords 1 1 := fun _ _ _ => 0

/-- Degenerate per-step draws: identity augmentation, zero Gaussian. -/
noncomputable def trivDraws : StepDraws 1 1 := ⟨id, zeroCoords⟩

/-- Positivity of the default Karras sigmas. -/
theorem sched_sigma_default_pos {i : ℕ} (hi : i ≤ 4) : 0 < sched_sigma defaultCfg 5 i := by
  have hB : (0:ℝ) < (0.0004:ℝ) ^ ((1:ℝ)/7) := Real.rpow_pos_of_pos (by norm_num) _
  have hBA : (0.0004:ℝ) ^ ((1:ℝ)/7) < (160:ℝ) ^ ((1:ℝ)/7) :=
    Real.rpow_lt_rpow (by norm_num) (by norm_num) (by norm_num)
  have hi' : (i:ℝ) ≤ 4 := by exact_mod_cast hi
  have hi0 : (0:ℝ) ≤ (i:ℝ) := Nat.cast_nonneg i
  have hq1 : (i:ℝ)/((5:ℝ)-1) ≤ 1 := by
    rw [show ((5:ℝ)-1) = 4 by norm_num]
    linarith
  have hq0 : (0:ℝ) ≤ (i:ℝ)/((5:ℝ)-1) := by positivity
  have hbase : (0:ℝ) < (160:ℝ) ^ ((1:ℝ)/7)
      + (i:ℝ)/((5:ℝ)-1) * ((0.0004:ℝ) ^ ((1:ℝ)/7) - (160:ℝ) ^ ((1:ℝ)/7)) := by
    nlinarith [mul_nonneg (by linarith : (0:ℝ) ≤ 1 - (i:ℝ)/((5:ℝ)-1))
      (by linarith : (0:ℝ) ≤ (160:ℝ) ^ ((1:ℝ)/7) - (0.0004:ℝ) ^ ((1:ℝ)/7))]
  rw [sched_sigma_default i]
  have hp := Real.rpow_pos_of_pos hbase 7
  nlinarith

/-- A step whose noise magnitude is undefined fails the whole step. -/
theorem sample_step_none_of_eps_none {b n : ℕ} {τ : Type} (cfg : AtomDiffusionCfg)
    (net : SCoords b n → (Fin b → ℝ) → SCoords b n × τ) (wra : WRAlign) (ard : Bool)
    (atom_mask : AMask b n) (draws : StepDraws b n) (sg : ℝ × ℝ × ℝ)
    (st : SCoords b n × Option (SCoords b n))
    (h : eps_scale cfg.noise_scale sg.1 sg.2.2 = none) :
    sample_step cfg net wra ard atom_mask draws sg st = none := by
  simp only [sample_step]
  rw [h]

/-- C3 counterexample: with `gamma_0 = -1/2 < 0` (so `t_hat < sigma_prev` in
the very first step) a full `sample` run crashes on the unclamped
`sqrt(t_hat**2 - sigma_tm**2)` — there is no `max(.., 0)` in the code —
instead of producing the claimed crash-free zero-clamped noise. -/
theorem sample_negGamma_crashes :
    sample cfgNegGamma trivNet trivWra false onesMask zeroCoords (fun _ => trivDraws) 5
      = none := by
  have hlen : (sigmas_and_gammas cfgNegGamma 5).length = 5 := by
    simp [sigmas_and_gammas, schedule_gammas, sample_schedule]
  obtain ⟨hd, tl, hcons⟩ : ∃ hd tl, sigmas_and_gammas cfgNegGamma 5 = hd :: tl := by
    cases h : sigmas_and_gammas cfgNegGamma 5 with
    | nil => rw [h] at hlen; simp at hlen
    | cons a l => exact ⟨a, l, rfl⟩
  have hσ1 : (0:ℝ) < sched cfgNegGamma 5 1 := by
    rw [show sched cfgNegGamma 5 1 = sched_sigma cfgNegGamma 5 1 from
      sched_of_lt cfgNegGamma (by norm_num)]
    exact sched_sigma_default_pos (by norm_num)
  have hσ0 : (0:ℝ) < sched cfgNegGamma 5 0 := by
    rw [show sched cfgNegGamma 5 0 = sched_sigma cfgNegGamma 5 0 from
      sched_of_lt cfgNegGamma (by norm_num)]
    exact sched_sigma_default_pos (by norm_num)
  have hif : (if cfgNegGamma.gamma_min < sched cfgNegGamma 5 1
      then cfgNegGamma.gamma_0 else 0) = -(1/2) := by
    rw [if_pos]
    · rfl
    · have hm : cfgNegGamma.gamma_min = -5 := rfl
      rw [hm]
      linarith
  have hd123 : hd = (sched cfgNegGamma 5 0, sched cfgNegGamma 5 1, -(1/2)) := by
    have hhd : hd = (sigmas_and_gammas cfgNegGamma 5).getD 0 (0, 0, 0) := by
      rw [hcons]
      rfl
    rw [hhd, sigmas_and_gammas_eq]
    rw [adjTriples_getD _ (sample_schedule cfgNegGamma 5) 0
      (by rw [sample_schedule_length]; omega)]
    rw [show ((sample_schedule cfgNegGamma 5).getD 1 0) = sched cfgNegGamma 5 1 from rfl,
      show ((sample_schedule cfgNegGamma 5).getD 0 0) = sched cfgNegGamma 5 0 from rfl, hif]
  have heps : eps_scale cfgNegGamma.noise_scale hd.1 hd.2.2 = none := by
    rw [hd123]
    show eps_scale cfgNegGamma.noise_scale (sched cfgNegGamma 5 0) (-(1/2)) = none
    unfold eps_scale psqrt
    rw [if_pos]
    · rfl
    · nlinarith [mul_pos hσ0 hσ0]
  have hstepNone : ∀ st : SCoords 1 1 × Option (SCoords 1 1),
      sample_step cfgNegGamma trivNet trivWra false onesMask trivDraws hd st = none :=
    fun st => sample_step_none_of_eps_none cfgNegGamma trivNet trivWra false onesMask
      trivDraws hd st heps
  simp only [sample]
  rw [hcons]
  simp only [foldSteps, hstepNone]
  rfl

/-- C7: two runs of `sample` with the same schedule configuration, the same
deterministic score model and alignment collaborators, and identical random
draw sequences (same order, shapes and count per step: one initial Gaussian
plus one augmentation and one Gaussian per step) produce identical output
coordinates. -/
theorem sample_deterministic {b n : ℕ} {τ : Type} (cfg : AtomDiffusionCfg)
    (net : SCoords b n → (Fin b → ℝ) → SCoords b n × τ) (wra : WRAlign)
    (ard : Bool) (atom_mask : AMask b n) (g1 g2 : SCoords b n)
    (d1 d2 : ℕ → StepDraws b n) (N : ℕ)
    (hg : g1 = g2) (hd : ∀ i, d1 i = d2 i) :
    sample cfg net wra ard atom_mask g1 d1 N
      = sample cfg net wra ard atom_mask g2 d2 N := by
  have hd2 : d1 = d2 := funext hd
  rw [hg, hd2]

/-- C7 witness: a concrete pair of identical runs. -/
theorem sample_deterministic_witness :
    sample defaultCfg trivNet trivWra false onesMask zeroCoords (fun _ => trivDraws) 5
      = sample defaultCfg trivNet trivWra false onesMask zeroCoords (fun _ => trivDraws) 5 :=
  sample_deterministic defaultCfg trivNet trivWra false onesMask zeroCoords zeroCoords
    (fun _ => trivDraws) (fun _ => trivDraws) 5 rfl (fun _ => rfl)

/-- Squared Euclidean distance between two 3D points. -/
noncomputable def dist2 (p q : Point) : ℝ :=
  (p 0 - q 0) ^ 2 + (p 1 - q 1) ^ 2 + (p 2 - q 2) ^ 2

/-- Euclidean distance between two 3D points, as computed by `torch.cdist`
(line 594). -/
noncomputable def pdist (p q : Point) : ℝ := Real.sqrt (dist2 p q)

/-- First-minimum fold underlying `argmin`: scans the index list in order,
replacing the running best only on a strictly smaller value. -/
noncomputable def argminFrom {m : ℕ} (d : Fin m → ℝ) : List (Fin m) → Fin m → Fin m
  | [], best => best
  | i :: is, best => argminFrom d is (if d i < d best then i else best)

/-- `torch.Tensor.argmin` over a nonempty index range (line 595): the index
of the first minimal value. -/
noncomputable def argmin {m : ℕ} (d : Fin (m+1) → ℝ) : Fin (m+1) :=
  argminFrom d (List.finRange (m+1)) 0

theorem argminFrom_le {m : ℕ} (d : Fin m → ℝ) :
    ∀ (l : List (Fin m)) (best : Fin m),
      d (argminFrom d l best) ≤ d best ∧ ∀ i ∈ l, d (argminFrom d l best) ≤ d i
  | [], best => ⟨le_refl _, by simp⟩
  | i :: is, best => by
      have ih := argminFrom_le d is (if d i < d best then i else best)
      constructor
      · refine le_trans ih.1 ?_
        by_cases h : d i < d best
        · rw [if_pos h]
          exact le_of_lt h
        · rw [if_neg h]
      · intro j hj
        rcases List.mem_cons.mp hj with hj | hj
        · subst hj
          refine le_trans ih.1 ?_
          by_cases h : d j < d best
          · rw [if_pos h]
          · rw [if_neg h]
            exact not_lt.mp h
        · exact ih.2 j hj

/-- The argmin index attains the minimum of `d`. -/
theorem argmin_le {m : ℕ} (d : Fin (m+1) → ℝ) (i : Fin (m+1)) :
    d (argmin d) ≤ d i :=
  (argminFrom_le d (List.finRange (m+1)) 0).2 i (List.mem_finRange i)

/-- The matched point set of `align_template` (lines 594-596): each predicted
point is paired with its (first) nearest guide point. -/
noncomputable def matchedOf {n m : ℕ} (template : Fin (m+1) → Point)
    (pred : Fin n → Point) : Fin n → Point :=
  fun j => template (argmin fun i => pdist (pred j) (template i))

/-- `align_template` (lines 593-604): the matched guide points are
rigid-aligned onto the prediction with all-ones weights and all-ones mask, on
a batch of one (`unsqueeze(0)` then `[0]`). -/
noncomputable def align_template {n m : ℕ} (wra : WRAlign)
    (template : Fin (m+1) → Point) (pred : Fin n → Point) : Fin n → Point :=
  wra 1 n (fun _ => matchedOf template pred) (fun _ => pred)
    (fun _ _ => 1) (fun _ _ => 1) 0

/-- One iteration of the loop of `AtomDiffusion.sample_guided`
(lines 606-678): like `sample_step` but, between the network evaluation and
the optional reverse-diffusion alignment, each sample's noisy coordinates are
steered towards its aligned guide template (lines 651-659). -/
noncomputable def sample_guided_step {b n m : ℕ} {τ : Type} (cfg : AtomDiffusionCfg)
    (net : SCoords b n → (Fin b → ℝ) → SCoords b n × τ) (wra : WRAlign)
    (alignment_reverse_diff : Bool) (atom_mask : AMask b n)
    (guide_coords : Fin (m+1) → Point) (guide_strength : ℝ) (draws : StepDraws b n)
    (sg : ℝ × ℝ × ℝ) (st : SCoords b n × Option (SCoords b n)) :
    Option (SCoords b n × Option (SCoords b n)) :=
  let sigma_tm := sg.1
  let sigma_t := sg.2.1
  let gamma := sg.2.2
  let aug := draws.augment st
  let atom_coords := aug.1
  let t_hat := sigma_tm * (1 + gamma)
  match eps_scale cfg.noise_scale sigma_tm gamma with
  | none => none
  | some e =>
    let atom_coords_noisy : SCoords b n :=
      fun s a k => atom_coords s a k + e * draws.gauss s a k
    let atom_coords_denoised :=
      (preconditioned_network_forward cfg.sigma_data net atom_coords_noisy
        (SigmaArg.scalar t_hat)).1
    let aligned_templates : SCoords b n :=
      fun s => align_template wra guide_coords (atom_coords_denoised s)
    let noisy_g : SCoords b n := fun s a k =>
      (1 - guide_strength) * atom_coords_noisy s a k
        + guide_strength * aligned_templates s a k
    let noisy2 : SCoords b n :=
      if alignment_reverse_diff then
        wra b n noisy_g atom_coords_denoised atom_mask atom_mask
      else noisy_g
    some
      ((fun s a k =>
          noisy2 s a k
            + cfg.step_scale * (sigma_t - t_hat)
              * ((noisy2 s a k - atom_coords_denoised s a k) / t_hat)),
        some atom_coords_denoised)

/-- `AtomDiffusion.sample_guided` (lines 544-680), restricted to the
coordinate stream, as a fold of `sample_guided_step` over the step
descriptors. -/
noncomputable def sample_guided {b n m : ℕ} {τ : Type} (cfg : AtomDiffusionCfg)
    (net : SCoords b n → (Fin b → ℝ) → SCoords b n × τ) (wra : WRAlign)
    (alignment_reverse_diff : Bool) (atom_mask : AMask b n)
    (guide_coords : Fin (m+1) → Point) (guide_strength : ℝ)
    (init_gauss : SCoords b n) (draws : ℕ → StepDraws b n) (N : ℕ) :
    Option (SCoords b n) :=
  let init_sigma := sched cfg N 0
  let atom_coords : SCoords b n := fun s a k => init_sigma * init_gauss s a k
  (foldSteps
      (fun i sg st =>
        sample_guided_step cfg net wra alignment_reverse_diff atom_mask guide_coords
          guide_strength (draws i) sg st)
      0 (sigmas_and_gammas cfg N) (atom_coords, none)).map
    fun st => st.1

/-- C6: in a guided sampling step, for each sample independently, every point
of the denoised estimate is matched to its nearest guide point in Euclidean
distance (the guide may have a different point count `m+1` than the atom
count `n`); the matched set is rigid-aligned onto that sample's denoised
estimate with all-ones weights and all-ones mask on a batch of one; and the
noisy coordinates become
`(1 - guide_strength) * noisy + guide_strength * aligned`. -/
theorem sample_guided_step_spec {b n m : ℕ} {τ : Type} (cfg : AtomDiffusionCfg)
    (net : SCoords b n → (Fin b → ℝ) → SCoords b n × τ) (wra : WRAlign) (ard : Bool)
    (atom_mask : AMask b n) (guide_coords : Fin (m+1) → Point) (gs : ℝ)
    (draws : StepDraws b n) (sigma_tm sigma_t gamma : ℝ)
    (st : SCoords b n × Option (SCoords b n)) (hγ : 0 ≤ gamma) :
    (∀ (pred : Fin n → Point) (j : Fin n) (i : Fin (m+1)),
        pdist (pred j) (matchedOf guide_coords pred j) ≤ pdist (pred j) (guide_coords i))
    ∧ (let t_hat := sigma_tm * (1 + gamma)
       let e := cfg.noise_scale * Real.sqrt (t_hat ^ 2 - sigma_tm ^ 2)
       let noisy : SCoords b n :=
         fun s a k => (draws.augment st).1 s a k + e * draws.gauss s a k
       let den :=
         (preconditioned_network_forward cfg.sigma_data net noisy
           (SigmaArg.scalar t_hat)).1
       let aligned : SCoords b n := fun s =>
         wra 1 n (fun _ => matchedOf guide_coords (den s)) (fun _ => den s)
           (fun _ _ => 1) (fun _ _ => 1) 0
       let steered : SCoords b n := fun s a k =>
         (1 - gs) * noisy s a k + gs * aligned s a k
       let noisy2 : SCoords b n :=
         if ard then wra b n steered den atom_mask atom_mask else steered
       sample_guided_step cfg net wra ard atom_mask guide_coords gs draws
           (sigma_tm, sigma_t, gamma) st
         = some
             ((fun s a k =>
                 noisy2 s a k
                   + cfg.step_scale * (sigma_t - t_hat)
                     * ((noisy2 s a k - den s a k) / t_hat)),
               some den)) := by
  constructor
  · intro pred j i
    exact argmin_le (fun i2 => pdist (pred j) (guide_coords i2)) i
  · simp only [sample_guided_step]
    rw [eps_scale_eq_of_nonneg cfg.noise_scale sigma_tm gamma hγ]
    rfl

/-- The guide point used by the C6 witness: a single point at the origin. -/
noncomputable def guidePt : Fin 1 → Point := fun _ _ => 0

/-- C6 witness: the nearest-match bound at a concrete step instance. -/
theorem sample_guided_step_spec_witness :
    pdist (zeroCoords 0 0) (matchedOf guidePt (zeroCoords 0) 0)
      ≤ pdist (zeroCoords 0 0) (guidePt 0) :=
  (sample_guided_step_spec defaultCfg trivNet trivWra false onesMask guidePt (1/10)
      trivDraws 1 0 0 (zeroCoords, none) le_rfl).1 (zeroCoords 0) 0 0

/-- An atom of a parsed residue: its name and coordinates (`atom.coord`). -/
structure PAtom where
  aname : String
  coord : Point

/-- A parsed residue: its atoms in file order. -/
structure PResidue where
  atoms : List PAtom

/-- Python `"CA" in res`: whether the residue has an alpha-carbon atom. -/
def PResidue.hasCA (r : PResidue) : Bool :=
  r.atoms.any fun a => a.aname == "CA"

/-- Python `res["CA"].coord`: the coordinates of the residue's first atom
named `CA`, if any. -/
def PResidue.ca (r : PResidue) : Option Point :=
  (r.atoms.find? fun a => a.aname == "CA").map PAtom.coord

/-- A parsed model: its chains, keyed by chain identifier, residues in
order. -/
structure PModel where
  chains : List (String × List PResidue)

/-- A parsed structure file: `structure[0]` and any later models.  Parsing
itself is the external structure-loader collaborator. -/
structure PStructure where
  model0 : PModel
  rest : List PModel

/-- `load_ca_tensor` (`src/boltz/src/boltz/utils.py` lines 7-16) after
parsing: reads `structure[0]`, raises a chain-not-found `ValueError` when the
chain id is absent from it, and otherwise collects `res["CA"].coord` for
every residue of the chain containing a `CA` atom, in residue order. -/
def load_ca_tensor (s : PStructure) (chain_id : String) : Except String (List Point) :=
  match s.model0.chains.lookup chain_id with
  | none => Except.error ("Chain " ++ chain_id ++ " not found")
  | some residues => Except.ok (residues.filterMap PResidue.ca)

theorem lookup_eq_none_iff {β : Type} (l : List (String × β)) (k : String) :
    l.lookup k = none ↔ ∀ p ∈ l, p.1 ≠ k := by
  induction l with
  | nil => simp
  | cons x xs ih =>
      cases x with
      | mk k2 v =>
          by_cases h : k = k2
          · subst h
            simp [List.lookup]
          · have hbeq : (k == k2) = false := by
              simp [h]
            simp [List.lookup, hbeq, ih]
            intro _
            exact fun he => h he.symm

theorem find?_isSome_eq_any {α : Type} (l : List α) (p : α → Bool) :
    (l.find? p).isSome = l.any p := by
  induction l with
  | nil => rfl
  | cons x xs ih =>
      by_cases h : p x
      · simp [List.find?_cons, List.any_cons, h]
      · simp [List.find?_cons, List.any_cons, h, ih]

/-- Extracting the first `CA` coordinate of each residue that has one equals
mapping the extraction over the filtered residue list, in order. -/
theorem filterMap_ca_eq :
    ∀ residues : List PResidue,
      residues.filterMap PResidue.ca
        = (residues.filter fun r => r.hasCA).map fun r => r.ca.getD (fun _ => 0) := by
  intro rs
  induction rs with
  | nil => rfl
  | cons r rs ih =>
      have hca : r.ca.isSome = r.hasCA := by
        unfold PResidue.ca PResidue.hasCA
        rw [← find?_isSome_eq_any]
        cases List.find? (fun a => a.aname == "CA") r.atoms with
        | none => rfl
        | some a => rfl
      cases hc : r.ca with
      | none =>
          have hh : r.hasCA = false := by
            rw [← hca, hc]
            rfl
          simp [List.filterMap_cons, List.filter_cons, hc, hh, ih]
      | some c =>
          have hh : r.hasCA = true := by
            rw [← hca, hc]
            rfl
          simp [List.filterMap_cons, List.filter_cons, hc, hh, ih]

/-- C8: `load_ca_tensor` fails with a chain-not-found error exactly when the
requested chain id is absent from the structure's first model; otherwise it
returns the alpha-carbon coordinates of the chain's residues that have one,
one point per such residue, in residue order. -/
theorem load_ca_tensor_spec (s : PStructure) (chain_id : String) :
    ((∃ msg, load_ca_tensor s chain_id = Except.error msg)
      ↔ ∀ p ∈ s.model0.chains, p.1 ≠ chain_id)
    ∧ (∀ residues, s.model0.chains.lookup chain_id = some residues →
        load_ca_tensor s chain_id
          = Except.ok ((residues.filter fun r => r.hasCA).map
              fun r => r.ca.getD (fun _ => 0))) := by
  constructor
  · rw [← lookup_eq_none_iff]
    constructor
    · rintro ⟨msg, hmsg⟩
      unfold load_ca_tensor at hmsg
      cases hl : s.model0.chains.lookup chain_id with
      | none => rfl
      | some residues =>
          rw [hl] at hmsg
          exact absurd hmsg (by simp)
    · intro hnone
      refine ⟨"Chain " ++ chain_id ++ " not found", ?_⟩
      unfold load_ca_tensor
      rw [hnone]
  · intro residues hres
    unfold load_ca_tensor
    rw [hres]
    show Except.ok (residues.filterMap PResidue.ca)
      = Except.ok ((residues.filter fun r => r.hasCA).map fun r => r.ca.getD (fun _ => 0))
    rw [filterMap_ca_eq]

/-- A one-chain example structure for the C8 witness. -/
def structEx : PStructure :=
  ⟨⟨[("A", [⟨[⟨"CA", fun _ => 1⟩]⟩])]⟩, []⟩

/-- C8 witness: on the example structure, chain `A` yields its CA point and
chain `B` raises chain-not-found. -/
theorem load_ca_tensor_spec_witness :
    load_ca_tensor structEx "A"
      = Except.ok ((([⟨[⟨"CA", fun _ => 1⟩]⟩] : List PResidue).filter
            fun r => r.hasCA).map fun r => r.ca.getD (fun _ => 0))
    ∧ ∃ msg, load_ca_tensor structEx "B" = Except.error msg := by
  constructor
  · exact (load_ca_tensor_spec structEx "A").2 [⟨[⟨"CA", fun _ => 1⟩]⟩] rfl
  · refine (load_ca_tensor_spec structEx "B").1.mpr ?_
    intro p hp
    have hp2 : p.1 = "A" := by
      rcases List.mem_singleton.mp hp with rfl
      rfl
    rw [hp2]
    decide

end Boltz
